import Mathlib

/-!
  graphql-proxy: request classification and weighted upstream selection.

  A shallow embedding of `pkgs/graphql/graphql.go`, `pkgs/loadbalancer/loadbalancer.go`,
  `pkgs/config/config.go` and of `Proxy.Handler` of `pkgs/proxy/proxy.go` with the metrics
  calls it makes, followed by theorems about the embedded functions.

  Conventions.
  * Go `string` is `String`; a Go slice is a `List`; Go `int` is `Int`, and the additions
    of the code are wrapped to 64 bits by `wrapInt`.
  * A Go result `(a, b, error)` is the tuple `(a, b, Option GoError)`, the error being
    `none` for `nil`.
  * Library calls (`parser.ParseQuery`, `os.ReadFile`, `yaml.Unmarshal`, the decoders
    of `encoding/json`, the HTTP client, the generator of `math/rand`) are parameters of
    the functions that call them; the clock value read by `time.Now().UnixNano()` is a
    parameter as well.
-/

namespace GraphqlProxy

/-! ## pkgs/graphql/graphql.go -/

/-- Go `error` values met in the embedded code: errors handed back by a library
  (`*gqlerror.Error`, I/O and decoding errors), errors made by `errors.New` or
  `fmt.Errorf` without `%w`, and errors wrapped by `fmt.Errorf` with `%w`. -/
inductive GoError where
  | lib (msg : String)
  | errorString (msg : String)
  | wrapped (ctx : String) (inner : GoError)
  deriving DecidableEq, Repr

/-- `type Operation = ast.Operation`, a string type. -/
abbrev Operation := String

def Query : Operation := "query"
def Mutation : Operation := "mutation"
def Subscription : Operation := "subscription"

/-- The fields of `ast.OperationDefinition` that `Request.Parse` reads. -/
structure OperationDefinition where
  Operation : Operation
  Name : String
  deriving DecidableEq, Repr

/-- The field of `ast.QueryDocument` that `Request.Parse` reads: the operation
  definitions in source order. -/
structure QueryDocument where
  Operations : List OperationDefinition
  deriving DecidableEq, Repr

/-- A value of type `interface{}` as `encoding/json` decodes one: `nil`, a `bool`, a
  number (kept as its literal), a `string`, a slice or a map. -/
inductive JsonValue where
  | null
  | bool (b : Bool)
  | number (literal : String)
  | string (s : String)
  | array (items : List JsonValue)
  | object (fields : List (String × JsonValue))

/-- `type Request struct`; `Variables` is `none` for a nil map. -/
structure Request where
  Query : String
  OperationName : String
  Variables : Option (List (String × JsonValue)) := none

/-- The loop `for _, op := range doc.Operations` of `Request.Parse`: the first
  definition whose name equals the requested one. -/
def Request.Parse.scan (operationName : String) :
    List OperationDefinition → Option (Operation × String)
  | [] => none
  | op :: rest =>
    if op.Name = operationName then some (op.Operation, op.Name)
    else Request.Parse.scan operationName rest

/-- `func (r Request) Parse() (Operation, string, error)`; `ParseQuery` stands for
  `parser.ParseQuery` applied to `&ast.Source{Input: r.Query}`. -/
def Request.Parse (ParseQuery : String → Except GoError QueryDocument) (r : Request) :
    Operation × String × Option GoError :=
  match ParseQuery r.Query with
  | .error err => ("", "", some err)
  | .ok doc =>
    if doc.Operations.length = 0 then
      ("", "", some (.errorString "no operations found"))
    else if h : doc.Operations.length = 1 ∧ r.OperationName = "" then
      let op := doc.Operations.get ⟨0, by omega⟩
      (op.Operation, op.Name, none)
    else if doc.Operations.length > 1 ∧ r.OperationName = "" then
      ("", "", some (.errorString
        "query contains multiple operations and no operation name was specified"))
    else
      match Request.Parse.scan r.OperationName doc.Operations with
      | some (operation, name) => (operation, name, none)
      | none =>
        ("", "", some (.errorString ("no operation found with name " ++ r.OperationName)))

/-- Go `url.Values` and `http.Header`: a map from a key to a list of values, as a list
  of entries looked up from the front. -/
abbrev Values := List (String × List String)

/-- The entry `v[key]` of a map of type `Values`, `none` when the key is absent. -/
def Values.lookup (v : Values) (key : String) : Option (List String) :=
  match v with
  | [] => none
  | (k, vs) :: rest => if k = key then some vs else Values.lookup rest key

/-- `func (v Values) Has(key string) bool`. -/
def Values.Has (v : Values) (key : String) : Bool :=
  (Values.lookup v key).isSome

/-- `func (v Values) Get(key string) string`, also `Header.Get` at a key in canonical
  form: the first value of the key, or the empty string. -/
def Values.Get (v : Values) (key : String) : String :=
  match Values.lookup v key with
  | some (first :: _) => first
  | _ => ""

/-- The field of `url.URL` read through `r.URL.Query()`: the parsed query values. -/
structure URL where
  Query : Values
  deriving DecidableEq, Repr

/-- A request body: the bytes it yields, and the error that ends the stream when it
  does not end in `io.EOF`. -/
structure Body where
  data : String
  err : Option GoError
  deriving DecidableEq, Repr

/-- `io.ReadAll` on a body. -/
def ReadAll (body : Body) : Except GoError String :=
  match body.err with
  | some err => .error err
  | none => .ok body.data

/-- The fields of `http.Request` that `ParseGraphQLRequest` reads. -/
structure HttpRequest where
  Method : String
  URL : URL
  Header : Values
  Body : Body
  deriving DecidableEq, Repr

def MethodGet : String := "GET"
def MethodPost : String := "POST"

/-- `func ParseGraphQLRequest(r *http.Request) (*Request, error)`.
  `Unmarshal data` stands for `json.Unmarshal(data, &req.Variables)` on a nil map: the
  value left in the map and the error returned. `Decode body req` stands for
  `json.NewDecoder(body).Decode(req)`: the request as decoded, or the error. -/
def ParseGraphQLRequest
    (Unmarshal : String → Option (List (String × JsonValue)) × Option GoError)
    (Decode : Body → Request → Except GoError Request) (r : HttpRequest) :
    Except GoError Request :=
  let req : Request := { Query := "", OperationName := "", Variables := none }
  if r.Method = MethodGet then
    let vars := r.URL.Query
    if !Values.Has vars "query" then
      .error (.errorString "query parameter is required")
    else
      let req := { req with Query := Values.Get vars "query" }
      let req :=
        if Values.Has vars "variables" then
          { req with Variables := (Unmarshal (Values.Get vars "variables")).1 }
        else req
      let req :=
        if Values.Has vars "operationName" then
          { req with OperationName := Values.Get vars "operationName" }
        else req
      .ok req
  else if r.Method = MethodPost then
    if Values.Get r.Header "Content-Type" = "application/graphql" then
      match ReadAll r.Body with
      | .error err => .error (.wrapped "error reading request body: " err)
      | .ok query => .ok { req with Query := query }
    else if Values.Get r.Header "Content-Type" = "application/json" then
      match Decode r.Body req with
      | .error err => .error (.wrapped "error parsing request body: " err)
      | .ok req => .ok req
    else
      .error (.errorString "unsupported content type")
  else
    .error (.errorString "method not allowed")

/-! ## pkgs/config/config.go -/

/-- `type Capability string`. -/
abbrev Capability := String

def CapabilityQuery : Capability := "query"
def CapabilityMutation : Capability := "mutation"
def CapabilitySubscription : Capability := "subscription"

structure UpstreamServer where
  URL : String
  Capabilities : List Capability
  Weight : Int
  OperationNames : List String
  deriving DecidableEq, Repr

structure LogConfig where
  Level : String
  Format : String
  Output : String
  deriving DecidableEq, Repr

/-- `time.Duration`, a count of nanoseconds. -/
abbrev Duration := Int

def Second : Duration := 1000000000

structure ServerConfig where
  ReadTimeout : Duration
  WriteTimeout : Duration
  IdleTimeout : Duration
  MaxIdleConns : Int
  MaxIdleConnsHost : Int
  HandshakeTimeout : Duration
  ResponseTimeout : Duration
  deriving DecidableEq, Repr

structure Config where
  Upstreams : List UpstreamServer
  Logging : LogConfig
  Server : ServerConfig
  deriving DecidableEq, Repr

/-- The block of `validateConfig` that sets default timeouts and pool sizes. -/
def validateConfig.defaults (s : ServerConfig) : ServerConfig :=
  let s := if s.ReadTimeout = 0 then { s with ReadTimeout := 30 * Second } else s
  let s := if s.WriteTimeout = 0 then { s with WriteTimeout := 30 * Second } else s
  let s := if s.IdleTimeout = 0 then { s with IdleTimeout := 90 * Second } else s
  let s := if s.MaxIdleConns = 0 then { s with MaxIdleConns := 100 } else s
  let s := if s.MaxIdleConnsHost = 0 then { s with MaxIdleConnsHost := 10 } else s
  let s := if s.HandshakeTimeout = 0 then { s with HandshakeTimeout := 10 * Second } else s
  if s.ResponseTimeout = 0 then { s with ResponseTimeout := 30 * Second } else s

/-- The loop `for i, upstream := range config.Upstreams` of `validateConfig`,
  started at index `i`. -/
def validateConfig.check : Nat → List UpstreamServer → Option GoError
  | _, [] => none
  | i, upstream :: rest =>
    if upstream.URL = "" then
      some (.errorString ("upstream #" ++ toString (i + 1) ++ " has empty URL"))
    else if upstream.Weight < 1 then
      some (.errorString ("upstream #" ++ toString (i + 1) ++ " has invalid weight: "
        ++ toString upstream.Weight))
    else if upstream.Capabilities.length = 0 then
      some (.errorString ("upstream #" ++ toString (i + 1) ++ " has no capabilities"))
    else validateConfig.check (i + 1) rest

/-- `func validateConfig(config *Config) error`: the configuration as the call
  leaves it, and the error returned. -/
def validateConfig (config : Config) : Config × Option GoError :=
  if config.Upstreams.length = 0 then
    (config, some (.errorString "no upstream servers configured"))
  else
    let config := { config with Server := validateConfig.defaults config.Server }
    (config, validateConfig.check 0 config.Upstreams)

/-- `func LoadConfig(filename string) (*Config, error)`; `ReadFile` stands for
  `os.ReadFile` and `Unmarshal` for `yaml.Unmarshal` into a zero `Config`. -/
def LoadConfig (ReadFile : String → Except GoError String)
    (Unmarshal : String → Except GoError Config) (filename : String) :
    Except GoError Config :=
  match ReadFile filename with
  | .error err => .error (.wrapped "reading config file: " err)
  | .ok data =>
    match Unmarshal data with
    | .error err => .error (.wrapped "parsing config file: " err)
    | .ok config =>
      match validateConfig config with
      | (_, some err) => .error (.wrapped "validating config: " err)
      | (config, none) => .ok config

/-! ## pkgs/loadbalancer/loadbalancer.go -/

/-- Go `int` arithmetic on a 64-bit target: the result of an addition, wrapped into
  `[-2^63, 2^63)`. -/
def wrapInt (x : Int) : Int := (x + 2 ^ 63) % 2 ^ 64 - 2 ^ 63

/-- The fields of `LoadBalancer` other than the lock. -/
structure LoadBalancer where
  servers : List UpstreamServer
  weights : List Int
  total : Int
  deriving DecidableEq, Repr

/-- The loop of `New`: cumulative weights and running total. -/
def New.loop : List UpstreamServer → List Int → Int → List Int × Int
  | [], weights, total => (weights, total)
  | server :: rest, weights, total =>
    let total := wrapInt (total + server.Weight)
    New.loop rest (weights ++ [total]) total

/-- `func New(servers []config.UpstreamServer) *LoadBalancer`. -/
def New (servers : List UpstreamServer) : LoadBalancer :=
  let r := New.loop servers [] 0
  { servers := servers, weights := r.1, total := r.2 }

/-- `func containsOperationName(names []string, target string) bool`. -/
def containsOperationName : List String → String → Bool
  | [], _ => false
  | name :: rest, target => if name = target then true else containsOperationName rest target

/-- The inner loop of `GetServer` that sets `hasCapability`. -/
def GetServer.hasCapability : List Capability → Capability → Bool
  | [], _ => false
  | cap :: rest, capability =>
    if cap = capability then true else GetServer.hasCapability rest capability

/-- The local variables `eligible`, `eligibleWeights` and `totalWeight` of `GetServer`. -/
structure GetServer.Locals where
  eligible : List UpstreamServer
  eligibleWeights : List Int
  totalWeight : Int
  deriving DecidableEq, Repr

/-- One iteration of the filtering loop of `GetServer`. -/
def GetServer.step (capability : Capability) (operationName : String)
    (st : GetServer.Locals) (server : UpstreamServer) : GetServer.Locals :=
  if !GetServer.hasCapability server.Capabilities capability then st
  else if server.OperationNames.length = 0
      || containsOperationName server.OperationNames operationName then
    let totalWeight := wrapInt (st.totalWeight + server.Weight)
    { eligible := st.eligible ++ [server],
      eligibleWeights := st.eligibleWeights ++ [totalWeight],
      totalWeight := totalWeight }
  else st

/-- The filtering loop `for _, server := range lb.servers` of `GetServer`. -/
def GetServer.filter (capability : Capability) (operationName : String)
    (servers : List UpstreamServer) : GetServer.Locals :=
  servers.foldl (GetServer.step capability operationName)
    { eligible := [], eligibleWeights := [], totalWeight := 0 }

/-- The selection loop `for i, weight := range eligibleWeights` of `GetServer`,
  at index `i`: the first index whose cumulative weight exceeds `point`, or `none`
  when the loop ends without returning. -/
def GetServer.pick (point : Int) : List Int → Nat → Option Nat
  | [], _ => none
  | weight :: rest, i => if point < weight then some i else GetServer.pick point rest (i + 1)

/-- How a call of `GetServer` ends: with a server, with an error, or in a panic. -/
inductive Outcome where
  | ok (server : UpstreamServer)
  | err (e : GoError)
  | panic (msg : String)
  deriving DecidableEq, Repr

/-- The result of a call of `GetServer`, with the seeds passed to `rand.NewSource`
  during the call, in order. -/
structure GetServerResult where
  outcome : Outcome
  seeds : List Int
  deriving DecidableEq, Repr

/-- `func (lb *LoadBalancer) GetServer(capability, operationName)`.
  `now` is the value of `time.Now().UnixNano()` read by the call, and `Intn seed n` is
  the value `rand.New(rand.NewSource(seed)).Intn(n)` for `n > 0`; for `n <= 0` the
  library call panics. -/
def GetServer (Intn : Int → Int → Int) (now : Int) (lb : LoadBalancer)
    (capability : Capability) (operationName : String) : GetServerResult :=
  let st := GetServer.filter capability operationName lb.servers
  if h : st.eligible.length = 0 then
    { outcome := .err (.errorString ("no servers available for capability: " ++ capability
        ++ " and operation: " ++ operationName)),
      seeds := [] }
  else if st.totalWeight ≤ 0 then
    { outcome := .panic "invalid argument to Intn", seeds := [now] }
  else
    let point := Intn now st.totalWeight
    match GetServer.pick point st.eligibleWeights 0 with
    | some i =>
      match st.eligible[i]? with
      | some server => { outcome := .ok server, seeds := [now] }
      | none => { outcome := .panic "index out of range", seeds := [now] }
    | none =>
      { outcome := .ok (st.eligible.getLast (by intro hn; simp [hn] at h)), seeds := [now] }

/-! ## pkgs/metrics/metrics.go and pkgs/proxy/proxy.go -/

/-- The calls that `Proxy.Handler` makes on `p.metrics`; the durations passed to the
  two recording calls are left out. -/
inductive MetricsCall where
  | IncActiveRequests
  | DecActiveRequests
  | RecordRequest (operation : String) (success : Bool)
  | RecordUpstreamRequest (url : String) (success : Bool)
  deriving DecidableEq, Repr

/-- The counter `activeRequests` after one call on the metrics: `IncActiveRequests`
  is `m.activeRequests.Add(1)`, `DecActiveRequests` is `m.activeRequests.Add(-1)`, and
  the recording calls do not touch the counter. -/
def MetricsCall.activeRequests (value : Int) : MetricsCall → Int
  | .IncActiveRequests => wrapInt (value + 1)
  | .DecActiveRequests => wrapInt (value + -1)
  | .RecordRequest _ _ => value
  | .RecordUpstreamRequest _ _ => value

/-- The counter `activeRequests` after a sequence of calls on the metrics. -/
def activeRequestsAfter (value : Int) (calls : List MetricsCall) : Int :=
  calls.foldl MetricsCall.activeRequests value

/-- The field of the upstream `http.Response` that decides a metrics call. -/
structure UpstreamResponse where
  StatusCode : Int
  deriving DecidableEq, Repr

/-- The library calls and the clock value that a run of `Proxy.Handler` depends on.
  `Marshal` is `json.Marshal(req)`, `NewRequest url body` the error of
  `http.NewRequestWithContext`, `Do` is `p.client.Do` on the upstream request built
  from the incoming request, the server URL and the body, and `Copy` the error of
  `io.Copy(w, resp.Body)`. -/
structure Handler.Env where
  Unmarshal : String → Option (List (String × JsonValue)) × Option GoError
  Decode : Body → Request → Except GoError Request
  ParseQuery : String → Except GoError QueryDocument
  Intn : Int → Int → Int
  now : Int
  Marshal : Request → Except GoError String
  NewRequest : String → String → Option GoError
  Do : HttpRequest → String → String → Except GoError UpstreamResponse
  Copy : UpstreamResponse → Option GoError

/-- The point at which a run of `Proxy.Handler` ends: one of its `return` statements
  (named by the response it wrote), the end of the function, or a panic raised inside
  `GetServer`. -/
inductive Handler.Exit where
  | badRequest
  | invalidQuery
  | noServerAvailable
  | marshalFailed
  | newRequestFailed
  | badGateway
  | copyFailed
  | proxied
  | panicked
  deriving DecidableEq, Repr

/-- What a run of `Proxy.Handler` leaves behind: the calls made on `p.metrics`, in the
  order made, and the exit taken. -/
structure HandlerResult where
  calls : List MetricsCall
  exit : Handler.Exit
  deriving DecidableEq, Repr

/-- `func (p *Proxy) Handler(w http.ResponseWriter, r *http.Request)`, with `lb` for
  `p.lb`. The deferred functions run at the exit, last registered first: the one that
  records the upstream request, then the one that calls `DecActiveRequests` and
  `RecordRequest` with `success := err == nil`. -/
def Handler (env : Handler.Env) (lb : LoadBalancer) (r : HttpRequest) : HandlerResult :=
  match ParseGraphQLRequest env.Unmarshal env.Decode r with
  | .error _ => { calls := [.IncActiveRequests], exit := .badRequest }
  | .ok req =>
    match Request.Parse env.ParseQuery req with
    | (_, _, some _) => { calls := [.IncActiveRequests], exit := .invalidQuery }
    | (op, name, none) =>
      match (GetServer env.Intn env.now lb op name).outcome with
      | .panic _ =>
        { calls := [.IncActiveRequests, .DecActiveRequests, .RecordRequest op true],
          exit := .panicked }
      | .err _ =>
        { calls := [.IncActiveRequests, .DecActiveRequests, .RecordRequest op false],
          exit := .noServerAvailable }
      | .ok server =>
        match env.Marshal req with
        | .error _ =>
          { calls := [.IncActiveRequests, .DecActiveRequests, .RecordRequest op false],
            exit := .marshalFailed }
        | .ok body =>
          match env.NewRequest server.URL body with
          | some _ =>
            { calls := [.IncActiveRequests, .DecActiveRequests, .RecordRequest op false],
              exit := .newRequestFailed }
          | none =>
            match env.Do r server.URL body with
            | .error _ =>
              { calls := [.IncActiveRequests, .DecActiveRequests, .RecordRequest op false],
                exit := .badGateway }
            | .ok resp =>
              { calls := [.IncActiveRequests,
                          .RecordUpstreamRequest server.URL (decide (resp.StatusCode < 500)),
                          .DecActiveRequests, .RecordRequest op true],
                exit := match env.Copy resp with
                  | some _ => .copyFailed
                  | none => .proxied }

/-! ## Auxiliary definitions used in the statements and proofs -/

/-- The condition under which the filtering loop of `GetServer` keeps a server. -/
def GetServer.keeps (capability : Capability) (operationName : String)
    (server : UpstreamServer) : Bool :=
  GetServer.hasCapability server.Capabilities capability
    && (decide (server.OperationNames.length = 0)
        || containsOperationName server.OperationNames operationName)

/-- The values appended to `eligibleWeights` when servers of weights `ws` are kept in
  turn, `acc` being the value of `totalWeight` before the first of them. -/
def cumulative (acc : Int) : List Int → List Int
  | [] => []
  | w :: ws => wrapInt (acc + w) :: cumulative (wrapInt (acc + w)) ws

/-- The value of `totalWeight` after servers of weights `ws` were kept in turn. -/
def cumTotal (acc : Int) : List Int → Int
  | [] => acc
  | w :: ws => cumTotal (wrapInt (acc + w)) ws

/-! ## Fixtures -/

/-- A table standing for `parser.ParseQuery` in the concrete instances below: the
  operation definitions of the query sources used in `graphql_test.go`, of a source
  with two definitions of the same name, and of a source holding only a fragment
  definition (no operation definition); any other source is answered with an error. -/
def testSources (input : String) : Except GoError QueryDocument :=
  if input = "query \x7b hello \x7d" then
    .ok { Operations := [{ Operation := Query, Name := "" }] }
  else if input = "query yo\x7b hello \x7d" then
    .ok { Operations := [{ Operation := Query, Name := "yo" }] }
  else if input = "query yo1\x7b hello \x7d" then
    .ok { Operations := [{ Operation := Query, Name := "yo1" }] }
  else if input = "query yo1\x7b hello \x7d query yo12\x7b hello \x7d" then
    .ok { Operations := [{ Operation := Query, Name := "yo1" },
                         { Operation := Query, Name := "yo12" }] }
  else if input =
      "query yo1\x7b hello \x7d query yo12\x7b hello \x7d mutation yo123\x7b hello \x7d" then
    .ok { Operations := [{ Operation := Query, Name := "yo1" },
                         { Operation := Query, Name := "yo12" },
                         { Operation := Mutation, Name := "yo123" }] }
  else if input = "query dup\x7b a \x7d mutation dup\x7b b \x7d" then
    .ok { Operations := [{ Operation := Query, Name := "dup" },
                         { Operation := Mutation, Name := "dup" }] }
  else if input = "fragment F on T \x7b a \x7d" then
    .ok { Operations := [] }
  else
    .error (.lib "syntax error")

/-- A server list with weights 1 and 3, both serving queries without restriction on
  operation names. -/
def twoServers : List UpstreamServer :=
  [{ URL := "http://a", Capabilities := [CapabilityQuery], Weight := 1, OperationNames := [] },
   { URL := "http://b", Capabilities := [CapabilityQuery], Weight := 3, OperationNames := [] }]

/-- A server list whose weights add up to `2^63`, one more than the largest `int`. -/
def hugeServers : List UpstreamServer :=
  [{ URL := "http://a", Capabilities := [CapabilityQuery], Weight := 2 ^ 62,
     OperationNames := [] },
   { URL := "http://b", Capabilities := [CapabilityQuery], Weight := 2 ^ 62,
     OperationNames := [] }]

/-- A generator whose `Intn` returns `seed mod n`. -/
def modIntn (seed n : Int) : Int := seed % n

/-- A configuration with the servers of `twoServers` and zero values elsewhere. -/
def sampleConfig : Config :=
  { Upstreams := twoServers,
    Logging := { Level := "", Format := "", Output := "" },
    Server := { ReadTimeout := 0, WriteTimeout := 0, IdleTimeout := 0, MaxIdleConns := 0,
                MaxIdleConnsHost := 0, HandshakeTimeout := 0, ResponseTimeout := 0 } }

/-- An incoming request with method `PUT`, no query values, no header and an empty
  body. -/
def putRequest : HttpRequest :=
  { Method := "PUT", URL := { Query := [] }, Header := [],
    Body := { data := "", err := none } }

/-- An incoming `GET` request whose query values hold the test source with one unnamed
  query under `query`, and the operation name "yo" under `operationName`. -/
def getRequestWrongName : HttpRequest :=
  { Method := "GET",
    URL := { Query := [("query", ["query \x7b hello \x7d"]), ("operationName", ["yo"])] },
    Header := [], Body := { data := "", err := none } }

/-- An incoming `GET` request whose query values hold the test source with one unnamed
  query under `query`, and text that is not JSON under `variables`. -/
def getRequest : HttpRequest :=
  { Method := "GET",
    URL := { Query := [("query", ["query \x7b hello \x7d"]), ("variables", ["not json"])] },
    Header := [], Body := { data := "", err := none } }

/-- An incoming `POST` request of content type `application/graphql` whose body is the
  test source with one unnamed query. -/
def postGraphqlRequest : HttpRequest :=
  { Method := "POST", URL := { Query := [] },
    Header := [("Content-Type", ["application/graphql"])],
    Body := { data := "query \x7b hello \x7d", err := none } }

/-- An incoming `POST` request of content type `application/json`. -/
def postJsonRequest : HttpRequest :=
  { Method := "POST", URL := { Query := [] },
    Header := [("Content-Type", ["application/json"])],
    Body := { data := "\x7b\x22query\x22: \x22query yo\x7b hello \x7d\x22, \x22operationName\x22: \x22yo\x22\x7d",
              err := none } }

/-- A decoder that rejects every input, for `json.Unmarshal` on text that is not JSON. -/
def failingUnmarshal (_ : String) : Option (List (String × JsonValue)) × Option GoError :=
  (none, some (.lib "invalid character"))

/-- A table standing for `json.NewDecoder(body).Decode(req)`: the body of
  `postJsonRequest` decodes to its query and operation name, any other body is
  answered with an error. -/
def testDecode (body : Body) (req : Request) : Except GoError Request :=
  if body.data
      = "\x7b\x22query\x22: \x22query yo\x7b hello \x7d\x22, \x22operationName\x22: \x22yo\x22\x7d" then
    .ok { req with Query := "query yo\x7b hello \x7d", OperationName := "yo" }
  else
    .error (.lib "invalid character")

/-- Library calls for the concrete runs of `Proxy.Handler` below: the tables
  `testSources` and `testDecode`, the generator `modIntn` at clock value 42, and an
  upstream that answers every request with status 200. -/
def testEnv : Handler.Env :=
  { Unmarshal := failingUnmarshal,
    Decode := testDecode,
    ParseQuery := testSources,
    Intn := modIntn,
    now := 42,
    Marshal := fun req => .ok req.Query,
    NewRequest := fun _ _ => none,
    Do := fun _ _ _ => .ok { StatusCode := 200 },
    Copy := fun _ => none }

/-! ## Lemmas on `Request.Parse` -/

lemma Parse_scan_none (name : String) (ops : List OperationDefinition) :
    Request.Parse.scan name ops = none ↔ ∀ op ∈ ops, op.Name ≠ name := by
  induction ops with
  | nil => simp [Request.Parse.scan]
  | cons op rest ih =>
    by_cases h : op.Name = name
    · simp [Request.Parse.scan, h]
    · simp [Request.Parse.scan, h, ih]

lemma Parse_scan_first (name : String) (ops : List OperationDefinition)
    (h : ∃ op ∈ ops, op.Name = name) :
    ∃ pre op post, ops = pre ++ op :: post ∧ (∀ o ∈ pre, o.Name ≠ name) ∧ op.Name = name ∧
      Request.Parse.scan name ops = some (op.Operation, name) := by
  induction ops with
  | nil => simp at h
  | cons o rest ih =>
    by_cases ho : o.Name = name
    · exact ⟨[], o, rest, by simp, by simp, ho, by simp [Request.Parse.scan, ho]⟩
    · have h2 : ∃ op ∈ rest, op.Name = name := by
        obtain ⟨op, hmem, hop⟩ := h
        rcases List.mem_cons.mp hmem with rfl | hm
        · exact absurd hop ho
        · exact ⟨op, hm, hop⟩
      obtain ⟨pre, op, post, hsplit, hpre, hop, hscan⟩ := ih h2
      refine ⟨o :: pre, op, post, by simp [hsplit], ?_, hop, ?_⟩
      · intro x hx
        rcases List.mem_cons.mp hx with rfl | hm
        · exact ho
        · exact hpre x hm
      · simp [Request.Parse.scan, ho, hscan]

/-! ## Theorems on `Request.Parse` -/

/-- C1: when the source parses to exactly one operation definition and the requested
  operation name is empty, `Request.Parse` succeeds with that definition's kind and
  name (the name may be empty). -/
theorem Parse_single_operation_without_name
    (ParseQuery : String → Except GoError QueryDocument) (r : Request)
    (doc : QueryDocument) (op : OperationDefinition)
    (hparse : ParseQuery r.Query = .ok doc) (hone : doc.Operations = [op])
    (hname : r.OperationName = "") :
    Request.Parse ParseQuery r = (op.Operation, op.Name, none) := by
  simp [Request.Parse, hparse, hone, hname]

/-- Witness for C1: the test source with one unnamed query and no requested name yields the kind "query" and the empty name. -/
theorem Parse_single_operation_without_name_witness :
    testSources "query \x7b hello \x7d"
        = .ok { Operations := [{ Operation := Query, Name := "" }] } ∧
      Request.Parse testSources { Query := "query \x7b hello \x7d", OperationName := "" }
        = ("query", "", none) :=
  ⟨by simp [testSources],
   Parse_single_operation_without_name testSources
     { Query := "query \x7b hello \x7d", OperationName := "" }
     { Operations := [{ Operation := Query, Name := "" }] }
     { Operation := Query, Name := "" } (by simp [testSources]) rfl rfl⟩

/-- C2: when the source parses and the requested operation name is non-empty and
  names at least one definition, `Request.Parse` succeeds with the kind of the first
  definition in source order that bears the name, and with the requested name; no
  definition before the returned one bears the name, so a later one is never returned. -/
theorem Parse_named_operation_first_match
    (ParseQuery : String → Except GoError QueryDocument) (r : Request)
    (doc : QueryDocument) (hparse : ParseQuery r.Query = .ok doc)
    (hname : r.OperationName ≠ "")
    (hex : ∃ op ∈ doc.Operations, op.Name = r.OperationName) :
    ∃ pre op post, doc.Operations = pre ++ op :: post ∧
      (∀ o ∈ pre, o.Name ≠ r.OperationName) ∧ op.Name = r.OperationName ∧
      Request.Parse ParseQuery r = (op.Operation, r.OperationName, none) := by
  obtain ⟨pre, op, post, hsplit, hpre, hop, hscan⟩ :=
    Parse_scan_first r.OperationName doc.Operations hex
  refine ⟨pre, op, post, hsplit, hpre, hop, ?_⟩
  have hlen : doc.Operations.length ≠ 0 := by simp [hsplit]
  simp [Request.Parse, hparse, hlen, hname, hscan]

/-- Witness for C2: a source with a query and a mutation both named "dup", requested by that name. -/
theorem Parse_named_operation_first_match_witness :
    testSources "query dup\x7b a \x7d mutation dup\x7b b \x7d"
        = .ok { Operations := [{ Operation := Query, Name := "dup" },
                               { Operation := Mutation, Name := "dup" }] } ∧
      ∃ pre op post,
        [({ Operation := Query, Name := "dup" } : OperationDefinition),
          { Operation := Mutation, Name := "dup" }] = pre ++ op :: post ∧
        (∀ o ∈ pre, o.Name ≠ "dup") ∧ op.Name = "dup" ∧
        Request.Parse testSources
          { Query := "query dup\x7b a \x7d mutation dup\x7b b \x7d", OperationName := "dup" }
          = (op.Operation, "dup", none) :=
  ⟨by simp [testSources],
   Parse_named_operation_first_match testSources
     { Query := "query dup\x7b a \x7d mutation dup\x7b b \x7d", OperationName := "dup" }
     { Operations := [{ Operation := Query, Name := "dup" },
                      { Operation := Mutation, Name := "dup" }] }
     (by simp [testSources]) (by decide)
     ⟨{ Operation := Query, Name := "dup" }, by simp, rfl⟩⟩

/-- C3: when the source parses to two or more operation definitions and the requested
  operation name is empty, `Request.Parse` fails with the error "query contains
  multiple operations and no operation name was specified" and returns an empty kind
  and an empty name. -/
theorem Parse_multiple_operations_without_name
    (ParseQuery : String → Except GoError QueryDocument) (r : Request)
    (doc : QueryDocument) (hparse : ParseQuery r.Query = .ok doc)
    (hmany : 2 ≤ doc.Operations.length) (hname : r.OperationName = "") :
    Request.Parse ParseQuery r = ("", "", some (.errorString
      "query contains multiple operations and no operation name was specified")) := by
  have h0 : doc.Operations.length ≠ 0 := by omega
  have h1 : doc.Operations.length ≠ 1 := by omega
  have h2 : 1 < doc.Operations.length := by omega
  simp [Request.Parse, hparse, h0, h1, h2, hname]

/-- Witness for C3: the test source with two named queries and no requested name. -/
theorem Parse_multiple_operations_without_name_witness :
    testSources "query yo1\x7b hello \x7d query yo12\x7b hello \x7d"
        = .ok { Operations := [{ Operation := Query, Name := "yo1" },
                               { Operation := Query, Name := "yo12" }] } ∧
      Request.Parse testSources
        { Query := "query yo1\x7b hello \x7d query yo12\x7b hello \x7d", OperationName := "" }
        = ("", "", some (.errorString
            "query contains multiple operations and no operation name was specified")) :=
  ⟨by simp [testSources],
   Parse_multiple_operations_without_name testSources
     { Query := "query yo1\x7b hello \x7d query yo12\x7b hello \x7d", OperationName := "" }
     { Operations := [{ Operation := Query, Name := "yo1" },
                      { Operation := Query, Name := "yo12" }] }
     (by simp [testSources]) (by decide) rfl⟩

/-- C4, as stated, fails: a source holding no operation definition parses, the
  requested name "yo" is non-empty and names no definition, and `Request.Parse` fails
  with "no operations found", not with the operation-not-found error. -/
theorem Parse_empty_document_with_name :
    testSources "fragment F on T \x7b a \x7d" = .ok { Operations := [] } ∧
      Request.Parse testSources
        { Query := "fragment F on T \x7b a \x7d", OperationName := "yo" }
        = ("", "", some (.errorString "no operations found")) ∧
      Request.Parse testSources
        { Query := "fragment F on T \x7b a \x7d", OperationName := "yo" }
        ≠ ("", "", some (.errorString ("no operation found with name " ++ "yo"))) := by
  refine ⟨by simp [testSources], ?_, ?_⟩
  · simp [Request.Parse, testSources]
  · simp [Request.Parse, testSources]

/-- C4, amended: when the source parses to at least one operation definition and the
  requested operation name is non-empty and names none of the definitions,
  `Request.Parse` fails with the error "no operation found with name" followed by
  the requested name; a single unnamed definition is such a case. -/
theorem Parse_unmatched_name
    (ParseQuery : String → Except GoError QueryDocument) (r : Request)
    (doc : QueryDocument) (hparse : ParseQuery r.Query = .ok doc)
    (hsome : doc.Operations ≠ []) (hname : r.OperationName ≠ "")
    (hnone : ∀ op ∈ doc.Operations, op.Name ≠ r.OperationName) :
    Request.Parse ParseQuery r = ("", "", some (.errorString
      ("no operation found with name " ++ r.OperationName))) := by
  have hlen : doc.Operations.length ≠ 0 := by simpa using hsome
  have hscan := (Parse_scan_none r.OperationName doc.Operations).mpr hnone
  simp [Request.Parse, hparse, hlen, hname, hscan]

/-- Witness for C4, amended: the test source with one unnamed query, requested by the name "yo". -/
theorem Parse_unmatched_name_witness :
    testSources "query \x7b hello \x7d"
        = .ok { Operations := [{ Operation := Query, Name := "" }] } ∧
      Request.Parse testSources { Query := "query \x7b hello \x7d", OperationName := "yo" }
        = ("", "", some (.errorString ("no operation found with name " ++ "yo"))) :=
  ⟨by simp [testSources],
   Parse_unmatched_name testSources
     { Query := "query \x7b hello \x7d", OperationName := "yo" }
     { Operations := [{ Operation := Query, Name := "" }] }
     (by simp [testSources]) (by simp) (by decide) (by simp)⟩

/-- C5: when the source parses to no operation definition, `Request.Parse` fails with
  the error "no operations found", whatever the requested operation name. -/
theorem Parse_no_operations
    (ParseQuery : String → Except GoError QueryDocument) (r : Request)
    (doc : QueryDocument) (hparse : ParseQuery r.Query = .ok doc)
    (hzero : doc.Operations = []) :
    Request.Parse ParseQuery r = ("", "", some (.errorString "no operations found")) := by
  simp [Request.Parse, hparse, hzero]

/-- Witness for C5: a source holding only a fragment definition, with no requested name. -/
theorem Parse_no_operations_witness :
    testSources "fragment F on T \x7b a \x7d" = .ok { Operations := [] } ∧
      Request.Parse testSources
        { Query := "fragment F on T \x7b a \x7d", OperationName := "" }
        = ("", "", some (.errorString "no operations found")) :=
  ⟨by simp [testSources],
   Parse_no_operations testSources
     { Query := "fragment F on T \x7b a \x7d", OperationName := "" }
     { Operations := [] } (by simp [testSources]) rfl⟩

/-! ## Lemmas on the loops of `GetServer` -/

lemma hasCapability_iff (caps : List Capability) (capability : Capability) :
    GetServer.hasCapability caps capability = true ↔ capability ∈ caps := by
  induction caps with
  | nil => simp [GetServer.hasCapability]
  | cons c rest ih =>
    by_cases h : c = capability
    · simp [GetServer.hasCapability, h]
    · have h2 : ¬ capability = c := fun e => h e.symm
      simp [GetServer.hasCapability, h, h2, ih]

lemma containsOperationName_iff (names : List String) (target : String) :
    containsOperationName names target = true ↔ target ∈ names := by
  induction names with
  | nil => simp [containsOperationName]
  | cons c rest ih =>
    by_cases h : c = target
    · simp [containsOperationName, h]
    · have h2 : ¬ target = c := fun e => h e.symm
      simp [containsOperationName, h, h2, ih]

lemma keeps_iff (capability : Capability) (operationName : String) (s : UpstreamServer) :
    GetServer.keeps capability operationName s = true ↔
      capability ∈ s.Capabilities ∧
        (s.OperationNames = [] ∨ operationName ∈ s.OperationNames) := by
  simp [GetServer.keeps, hasCapability_iff, containsOperationName_iff]

lemma step_eq (capability : Capability) (operationName : String)
    (st : GetServer.Locals) (server : UpstreamServer) :
    GetServer.step capability operationName st server =
      if GetServer.keeps capability operationName server then
        { eligible := st.eligible ++ [server],
          eligibleWeights := st.eligibleWeights ++ [wrapInt (st.totalWeight + server.Weight)],
          totalWeight := wrapInt (st.totalWeight + server.Weight) }
      else st := by
  unfold GetServer.step GetServer.keeps
  cases GetServer.hasCapability server.Capabilities capability <;>
    cases containsOperationName server.OperationNames operationName <;>
    by_cases h : server.OperationNames.length = 0 <;> simp [h]

lemma foldl_step (capability : Capability) (operationName : String)
    (servers : List UpstreamServer) (st : GetServer.Locals) :
    servers.foldl (GetServer.step capability operationName) st =
      { eligible := st.eligible ++ servers.filter (GetServer.keeps capability operationName),
        eligibleWeights := st.eligibleWeights ++ cumulative st.totalWeight
          ((servers.filter (GetServer.keeps capability operationName)).map (·.Weight)),
        totalWeight := cumTotal st.totalWeight
          ((servers.filter (GetServer.keeps capability operationName)).map (·.Weight)) } := by
  induction servers generalizing st with
  | nil => simp [cumulative, cumTotal]
  | cons s rest ih =>
    rw [List.foldl_cons, ih, step_eq]
    by_cases h : GetServer.keeps capability operationName s = true
    · simp [h, cumulative, cumTotal]
    · simp [h]

lemma filter_eq (capability : Capability) (operationName : String)
    (servers : List UpstreamServer) :
    GetServer.filter capability operationName servers =
      { eligible := servers.filter (GetServer.keeps capability operationName),
        eligibleWeights := cumulative 0
          ((servers.filter (GetServer.keeps capability operationName)).map (·.Weight)),
        totalWeight := cumTotal 0
          ((servers.filter (GetServer.keeps capability operationName)).map (·.Weight)) } := by
  unfold GetServer.filter
  rw [foldl_step]
  simp

lemma cumulative_length (ws : List Int) (acc : Int) :
    (cumulative acc ws).length = ws.length := by
  induction ws generalizing acc with
  | nil => rfl
  | cons w ws ih => simp [cumulative, ih]

lemma cumulative_total_mem (ws : List Int) (acc : Int) (h : ws ≠ []) :
    cumTotal acc ws ∈ cumulative acc ws := by
  induction ws generalizing acc with
  | nil => exact absurd rfl h
  | cons w ws ih =>
    cases ws with
    | nil => simp [cumulative, cumTotal]
    | cons v vs =>
      have := ih (wrapInt (acc + w)) (by simp)
      simp only [cumulative, cumTotal] at this ⊢
      exact List.mem_cons_of_mem _ this

lemma pick_bounds (point : Int) (ws : List Int) (k i : Nat)
    (h : GetServer.pick point ws k = some i) : k ≤ i ∧ i < k + ws.length := by
  induction ws generalizing k with
  | nil => simp [GetServer.pick] at h
  | cons w ws ih =>
    by_cases hp : point < w
    · simp [GetServer.pick, hp] at h
      simp
      omega
    · simp only [GetServer.pick, hp, if_false] at h
      have := ih (k + 1) h
      simp
      omega

lemma pick_of_mem (point : Int) (ws : List Int) (k : Nat)
    (h : ∃ w ∈ ws, point < w) : ∃ i, GetServer.pick point ws k = some i := by
  induction ws generalizing k with
  | nil => simp at h
  | cons w ws ih =>
    by_cases hp : point < w
    · exact ⟨k, by simp [GetServer.pick, hp]⟩
    · obtain ⟨v, hv, hlt⟩ := h
      rcases List.mem_cons.mp hv with rfl | hm
      · exact absurd hlt hp
      · obtain ⟨i, hi⟩ := ih (k + 1) ⟨v, hm, hlt⟩
        exact ⟨i, by simp [GetServer.pick, hp, hi]⟩

lemma filter_lengths (capability : Capability) (operationName : String)
    (servers : List UpstreamServer) :
    (GetServer.filter capability operationName servers).eligibleWeights.length =
      (GetServer.filter capability operationName servers).eligible.length := by
  rw [filter_eq]
  simp [cumulative_length]

lemma filter_total_mem (capability : Capability) (operationName : String)
    (servers : List UpstreamServer)
    (h : (GetServer.filter capability operationName servers).eligible ≠ []) :
    (GetServer.filter capability operationName servers).totalWeight ∈
      (GetServer.filter capability operationName servers).eligibleWeights := by
  rw [filter_eq] at h ⊢
  exact cumulative_total_mem _ 0 (by simpa using h)

lemma filter_eligible_mem (capability : Capability) (operationName : String)
    (servers : List UpstreamServer) (s : UpstreamServer) :
    s ∈ (GetServer.filter capability operationName servers).eligible ↔
      s ∈ servers ∧ capability ∈ s.Capabilities ∧
        (s.OperationNames = [] ∨ operationName ∈ s.OperationNames) := by
  rw [filter_eq]
  simp only [List.mem_filter, keeps_iff]

/-- The outcome and the seeds of a call of `GetServer`, by cases on the local
  variables left by the filtering loop. -/
lemma GetServer_cases (Intn : Int → Int → Int) (now : Int) (lb : LoadBalancer)
    (capability : Capability) (operationName : String) :
    ((GetServer.filter capability operationName lb.servers).eligible = [] ∧
      GetServer Intn now lb capability operationName =
        { outcome := .err (.errorString ("no servers available for capability: "
            ++ capability ++ " and operation: " ++ operationName)),
          seeds := [] }) ∨
    ((GetServer.filter capability operationName lb.servers).eligible ≠ [] ∧
      (GetServer.filter capability operationName lb.servers).totalWeight ≤ 0 ∧
      GetServer Intn now lb capability operationName =
        { outcome := .panic "invalid argument to Intn", seeds := [now] }) ∨
    ((GetServer.filter capability operationName lb.servers).eligible ≠ [] ∧
      0 < (GetServer.filter capability operationName lb.servers).totalWeight ∧
      ((∃ i server,
          GetServer.pick
            (Intn now (GetServer.filter capability operationName lb.servers).totalWeight)
            (GetServer.filter capability operationName lb.servers).eligibleWeights 0 = some i ∧
          (GetServer.filter capability operationName lb.servers).eligible[i]? = some server ∧
          GetServer Intn now lb capability operationName =
            { outcome := .ok server, seeds := [now] }) ∨
       (∃ hne : (GetServer.filter capability operationName lb.servers).eligible ≠ [],
          GetServer.pick
            (Intn now (GetServer.filter capability operationName lb.servers).totalWeight)
            (GetServer.filter capability operationName lb.servers).eligibleWeights 0 = none ∧
          GetServer Intn now lb capability operationName =
            { outcome := .ok
                ((GetServer.filter capability operationName lb.servers).eligible.getLast hne),
              seeds := [now] }))) := by
  by_cases h0 : (GetServer.filter capability operationName lb.servers).eligible = []
  · left
    refine ⟨h0, ?_⟩
    simp [GetServer, h0]
  · right
    have hlen : (GetServer.filter capability operationName lb.servers).eligible.length ≠ 0 := by
      simpa using h0
    by_cases hT : (GetServer.filter capability operationName lb.servers).totalWeight ≤ 0
    · left
      refine ⟨h0, hT, ?_⟩
      simp [GetServer, hlen, hT]
    · right
      refine ⟨h0, by omega, ?_⟩
      cases hp : GetServer.pick
          (Intn now (GetServer.filter capability operationName lb.servers).totalWeight)
          (GetServer.filter capability operationName lb.servers).eligibleWeights 0 with
      | none =>
        right
        refine ⟨h0, rfl, ?_⟩
        simp [GetServer, hlen, hT, hp]
      | some i =>
        left
        have hb := pick_bounds _ _ _ _ hp
        rw [filter_lengths] at hb
        have hi : i < (GetServer.filter capability operationName lb.servers).eligible.length := by
          omega
        refine ⟨i, (GetServer.filter capability operationName lb.servers).eligible[i], rfl,
          by simp [hi], ?_⟩
        simp [GetServer, hlen, hT, hp, hi]

/-! ## Lemmas on cumulative weights without overflow -/

lemma wrapInt_of_fits (x : Int) (hlo : 0 ≤ x) (hhi : x < 2 ^ 63) : wrapInt x = x := by
  unfold wrapInt
  rw [Int.emod_eq_of_lt (by omega) (by omega)]
  omega

lemma sum_take_nonneg (ws : List Int) (hw : ∀ w ∈ ws, 0 ≤ w) (n : Nat) :
    0 ≤ (ws.take n).sum :=
  List.sum_nonneg fun w h => hw w (List.mem_of_mem_take h)

lemma sum_take_le (ws : List Int) (hw : ∀ w ∈ ws, 0 ≤ w) (n : Nat) :
    (ws.take n).sum ≤ ws.sum := by
  have h := List.sum_take_add_sum_drop ws n
  have hd : 0 ≤ (ws.drop n).sum :=
    List.sum_nonneg fun w h => hw w (List.mem_of_mem_drop h)
  omega

lemma length_le_sum (ws : List Int) (hw : ∀ w ∈ ws, 1 ≤ w) : (ws.length : Int) ≤ ws.sum := by
  induction ws with
  | nil => simp
  | cons w ws ih =>
    have h1 := hw w (by simp)
    have h2 := ih fun v hv => hw v (by simp [hv])
    simp only [List.length_cons, List.sum_cons]
    push_cast
    omega

lemma cumTotal_of_fits (ws : List Int) (acc : Int) (hw : ∀ w ∈ ws, 0 ≤ w) (hacc : 0 ≤ acc)
    (hfit : acc + ws.sum < 2 ^ 63) : cumTotal acc ws = acc + ws.sum := by
  induction ws generalizing acc with
  | nil => simp [cumTotal]
  | cons w ws ih =>
    have h1 := hw w (by simp)
    have hrest : ∀ v ∈ ws, 0 ≤ v := fun v hv => hw v (by simp [hv])
    have h2 : 0 ≤ ws.sum := List.sum_nonneg hrest
    simp only [List.sum_cons] at hfit
    have hwrap : wrapInt (acc + w) = acc + w := wrapInt_of_fits _ (by omega) (by omega)
    simp only [cumTotal, hwrap, List.sum_cons]
    rw [ih (acc + w) hrest (by omega) (by omega)]
    omega

lemma pick_cumulative (ws : List Int) (acc : Int) (k i : Nat) (point : Int)
    (hw : ∀ w ∈ ws, 0 ≤ w) (hacc : 0 ≤ acc) (hfit : acc + ws.sum < 2 ^ 63)
    (hpt : acc ≤ point) :
    GetServer.pick point (cumulative acc ws) k = some (k + i) ↔
      i < ws.length ∧ acc + (ws.take i).sum ≤ point ∧
        point < acc + (ws.take (i + 1)).sum := by
  induction ws generalizing acc k i with
  | nil => simp [cumulative, GetServer.pick]
  | cons w ws ih =>
    have h1 := hw w (by simp)
    have hrest : ∀ v ∈ ws, 0 ≤ v := fun v hv => hw v (by simp [hv])
    have h2 : 0 ≤ ws.sum := List.sum_nonneg hrest
    simp only [List.sum_cons] at hfit
    have hwrap : wrapInt (acc + w) = acc + w := wrapInt_of_fits _ (by omega) (by omega)
    simp only [cumulative, hwrap, GetServer.pick]
    by_cases hp : point < acc + w
    · simp only [hp, if_true]
      cases i with
      | zero => simp [hp, hpt]
      | succ j =>
        have := sum_take_nonneg ws hrest j
        simp only [List.take_succ_cons, List.sum_cons, Option.some.injEq]
        constructor
        · intro h
          omega
        · rintro ⟨_, h, _⟩
          omega
    · simp only [hp, if_false]
      cases i with
      | zero =>
        simp only [List.take_succ_cons, List.take_zero, List.sum_nil, List.sum_cons]
        constructor
        · intro h
          have := (pick_bounds _ _ _ _ h).1
          omega
        · rintro ⟨_, _, h⟩
          omega
      | succ j =>
        have hk : k + (j + 1) = (k + 1) + j := by omega
        rw [hk, ih (acc + w) (k + 1) j hrest (by omega) (by omega) (by omega)]
        simp only [List.take_succ_cons, List.sum_cons, List.length_cons]
        constructor
        · rintro ⟨a, b, c⟩
          exact ⟨by omega, by omega, by omega⟩
        · rintro ⟨a, b, c⟩
          exact ⟨by omega, by omega, by omega⟩

lemma countP_range_between (n : Nat) (lo hi : Int) (h0 : 0 ≤ lo) (hlh : lo ≤ hi) :
    ((List.countP (fun r : Nat => decide (lo ≤ (r : Int) ∧ (r : Int) < hi))
        (List.range n) : Nat) : Int) = min hi n - min lo n := by
  induction n with
  | zero =>
    simp
    omega
  | succ n ih =>
    rw [List.range_succ, List.countP_append]
    push_cast
    rw [ih]
    by_cases hp : lo ≤ (n : Int) ∧ (n : Int) < hi
    · simp [List.countP_cons, hp]
      omega
    · simp [List.countP_cons, hp]
      omega

lemma count_pick_cumulative (ws : List Int) (hw : ∀ w ∈ ws, 0 ≤ w) (hfit : ws.sum < 2 ^ 63)
    (i : Nat) (hi : i < ws.length) :
    ((List.countP (fun r : Nat => GetServer.pick (r : Int) (cumulative 0 ws) 0 == some i)
        (List.range ws.sum.toNat) : Nat) : Int) = ws[i] := by
  have hcongr : List.countP
      (fun r : Nat => GetServer.pick (r : Int) (cumulative 0 ws) 0 == some i)
      (List.range ws.sum.toNat) =
      List.countP (fun r : Nat =>
        decide ((ws.take i).sum ≤ (r : Int) ∧ (r : Int) < (ws.take (i + 1)).sum))
      (List.range ws.sum.toNat) := by
    apply List.countP_congr
    intro r _
    have h := pick_cumulative ws 0 0 i (r : Int) hw (le_refl 0) (by omega) (by omega)
    simp only [Nat.zero_add, Int.zero_add] at h
    simp only [beq_iff_eq, decide_eq_true_eq, h]
    constructor
    · rintro ⟨_, a, b⟩
      exact ⟨a, b⟩
    · rintro ⟨a, b⟩
      exact ⟨hi, a, b⟩
  have hlo := sum_take_nonneg ws hw i
  have hstep := List.sum_take_succ ws i hi
  have hget : 0 ≤ ws[i] := hw _ (List.getElem_mem hi)
  have hhi := sum_take_le ws hw (i + 1)
  rw [hcongr, countP_range_between _ _ _ hlo (by omega)]
  have hsum : 0 ≤ ws.sum := List.sum_nonneg hw
  have hn : ((ws.sum.toNat : Nat) : Int) = ws.sum := Int.toNat_of_nonneg hsum
  rw [hn]
  omega

/-! ## Theorems on `GetServer` -/

/-- C6: `GetServer` returns an error if and only if no configured server both declares
  the capability and has an operation-name list that is empty or holds the operation
  name; and a server it returns is a configured server that declares the capability
  and whose operation-name list is empty or holds the operation name. -/
theorem GetServer_error_iff_none_eligible (Intn : Int → Int → Int) (now : Int)
    (lb : LoadBalancer) (capability : Capability) (operationName : String) :
    ((∃ e, (GetServer Intn now lb capability operationName).outcome = .err e) ↔
      ¬ ∃ s ∈ lb.servers, capability ∈ s.Capabilities ∧
          (s.OperationNames = [] ∨ operationName ∈ s.OperationNames)) ∧
    (∀ server, (GetServer Intn now lb capability operationName).outcome = .ok server →
      server ∈ lb.servers ∧ capability ∈ server.Capabilities ∧
        (server.OperationNames = [] ∨ operationName ∈ server.OperationNames)) := by
  have hmem := filter_eligible_mem capability operationName lb.servers
  have hnone : (GetServer.filter capability operationName lb.servers).eligible = [] ↔
      ¬ ∃ s ∈ lb.servers, capability ∈ s.Capabilities ∧
          (s.OperationNames = [] ∨ operationName ∈ s.OperationNames) := by
    constructor
    · rintro h ⟨s, hs, hc⟩
      have := (hmem s).mpr ⟨hs, hc⟩
      rw [h] at this
      simp at this
    · intro h
      apply List.eq_nil_iff_forall_not_mem.mpr
      intro s hs
      exact h ⟨s, ((hmem s).mp hs).1, ((hmem s).mp hs).2⟩
  rcases GetServer_cases Intn now lb capability operationName with
    ⟨h0, hres⟩ | ⟨h0, _, hres⟩ | ⟨h0, _, ⟨i, server, _, hget, hres⟩ | ⟨hne, _, hres⟩⟩
  · rw [hres]
    refine ⟨⟨fun _ => hnone.mp h0, fun _ => ⟨_, rfl⟩⟩, ?_⟩
    intro server hs
    simp at hs
  · rw [hres]
    refine ⟨⟨fun ⟨e, he⟩ => by simp at he, fun h => absurd (hnone.mpr h) h0⟩, ?_⟩
    intro server hs
    simp at hs
  · rw [hres]
    refine ⟨⟨fun ⟨e, he⟩ => by simp at he, fun h => absurd (hnone.mpr h) h0⟩, ?_⟩
    intro s hs
    simp only [Outcome.ok.injEq] at hs
    subst hs
    exact (hmem server).mp (List.getElem?_mem hget)
  · rw [hres]
    refine ⟨⟨fun ⟨e, he⟩ => by simp at he, fun h => absurd (hnone.mpr h) h0⟩, ?_⟩
    intro s hs
    simp only [Outcome.ok.injEq] at hs
    subst hs
    exact (hmem _).mp (List.getLast_mem hne)

/-- Witness for C6: of two servers that serve queries only, none is eligible for a
  mutation and `GetServer` returns an error; for a query it returns the second server,
  which is configured, declares the capability and has an empty operation-name list. -/
theorem GetServer_error_iff_none_eligible_witness :
    (∃ e, (GetServer modIntn 42 (New twoServers) CapabilityMutation "").outcome = .err e) ∧
    (GetServer modIntn 42 (New twoServers) CapabilityQuery "").outcome =
      .ok { URL := "http://b", Capabilities := [CapabilityQuery], Weight := 3,
            OperationNames := [] } ∧
    (({ URL := "http://b", Capabilities := [CapabilityQuery], Weight := 3,
        OperationNames := [] } : UpstreamServer) ∈ (New twoServers).servers ∧
      CapabilityQuery ∈ [CapabilityQuery] ∧
      (([] : List String) = [] ∨ "" ∈ ([] : List String))) :=
  ⟨(GetServer_error_iff_none_eligible modIntn 42 (New twoServers) CapabilityMutation "").1.mpr
      (by decide),
   by decide,
   (GetServer_error_iff_none_eligible modIntn 42 (New twoServers) CapabilityQuery "").2
      { URL := "http://b", Capabilities := [CapabilityQuery], Weight := 3,
        OperationNames := [] }
      (by decide)⟩

/-- C8: when the eligible set is not empty and the drawn point lies in
  `[0, totalWeight)`, the selection loop of `GetServer` returns at some index of the
  eligible set, so `GetServer` returns the server at that index and does not reach the
  statement after the loop. -/
theorem GetServer_fallback_unreachable (Intn : Int → Int → Int) (now : Int)
    (lb : LoadBalancer) (capability : Capability) (operationName : String)
    (hne : (GetServer.filter capability operationName lb.servers).eligible ≠ [])
    (hlo : 0 ≤ Intn now (GetServer.filter capability operationName lb.servers).totalWeight)
    (hhi : Intn now (GetServer.filter capability operationName lb.servers).totalWeight
      < (GetServer.filter capability operationName lb.servers).totalWeight) :
    ∃ i server,
      GetServer.pick
        (Intn now (GetServer.filter capability operationName lb.servers).totalWeight)
        (GetServer.filter capability operationName lb.servers).eligibleWeights 0 = some i ∧
      (GetServer.filter capability operationName lb.servers).eligible[i]? = some server ∧
      (GetServer Intn now lb capability operationName).outcome = .ok server := by
  have hpick := pick_of_mem
    (Intn now (GetServer.filter capability operationName lb.servers).totalWeight)
    (GetServer.filter capability operationName lb.servers).eligibleWeights 0
    ⟨_, filter_total_mem capability operationName lb.servers hne, hhi⟩
  rcases GetServer_cases Intn now lb capability operationName with
    ⟨h0, _⟩ | ⟨_, hT, _⟩ | ⟨_, _, ⟨i, server, hp, hget, hres⟩ | ⟨_, hp, _⟩⟩
  · exact absurd h0 hne
  · omega
  · exact ⟨i, server, hp, hget, by rw [hres]⟩
  · obtain ⟨i, hi⟩ := hpick
    rw [hp] at hi
    simp at hi

/-- Witness for C8: two eligible servers of weights 1 and 3, clock value 42, generator `modIntn`. -/
theorem GetServer_fallback_unreachable_witness :
    (GetServer.filter CapabilityQuery "" (New twoServers).servers).eligible ≠ [] ∧
    0 ≤ modIntn 42 (GetServer.filter CapabilityQuery "" (New twoServers).servers).totalWeight ∧
    modIntn 42 (GetServer.filter CapabilityQuery "" (New twoServers).servers).totalWeight
      < (GetServer.filter CapabilityQuery "" (New twoServers).servers).totalWeight ∧
    ∃ i server,
      GetServer.pick
        (modIntn 42 (GetServer.filter CapabilityQuery "" (New twoServers).servers).totalWeight)
        (GetServer.filter CapabilityQuery "" (New twoServers).servers).eligibleWeights 0
          = some i ∧
      (GetServer.filter CapabilityQuery "" (New twoServers).servers).eligible[i]?
        = some server ∧
      (GetServer modIntn 42 (New twoServers) CapabilityQuery "").outcome = .ok server :=
  ⟨by decide, by decide, by decide,
   GetServer_fallback_unreachable modIntn 42 (New twoServers) CapabilityQuery ""
     (by decide) (by decide) (by decide)⟩

/-- C7, as stated, fails: two eligible servers of weight `2^62` each have weights at
  least 1, the running total wraps to `-2^63`, the selection loop returns the second
  server for no point at all, and `GetServer` panics in `Intn`. -/
theorem GetServer_selection_overflow :
    (GetServer.filter CapabilityQuery "" (New hugeServers).servers).eligible = hugeServers ∧
    (GetServer.filter CapabilityQuery "" (New hugeServers).servers).eligibleWeights
      = [2 ^ 62, -2 ^ 63] ∧
    (GetServer.filter CapabilityQuery "" (New hugeServers).servers).totalWeight = -2 ^ 63 ∧
    ((List.countP (fun r : Nat => GetServer.pick (r : Int)
          (GetServer.filter CapabilityQuery "" (New hugeServers).servers).eligibleWeights 0
            == some 1)
        (List.range
          (GetServer.filter CapabilityQuery "" (New hugeServers).servers).totalWeight.toNat)
        : Nat) : Int) ≠ 2 ^ 62 ∧
    (GetServer modIntn 42 (New hugeServers) CapabilityQuery "").outcome
      = .panic "invalid argument to Intn" := by
  decide

/-- C7, amended: when every configured weight is at least 1 and the weights of the
  eligible servers add up to less than `2^63`, `totalWeight` is the sum of the eligible
  weights, and for every index `i` of the eligible set the number of points `r` in
  `[0, totalWeight)` at which the selection loop returns at index `i` is the weight of
  the eligible server at `i`; `GetServer` returns that server when the loop returns at
  `i`. -/
theorem GetServer_selection_proportional (lb : LoadBalancer) (capability : Capability)
    (operationName : String) (hw : ∀ s ∈ lb.servers, 1 ≤ s.Weight)
    (hfit : ((GetServer.filter capability operationName lb.servers).eligible.map
      (·.Weight)).sum < 2 ^ 63)
    (i : Nat) (server : UpstreamServer)
    (hget : (GetServer.filter capability operationName lb.servers).eligible[i]? = some server) :
    (GetServer.filter capability operationName lb.servers).totalWeight =
      ((GetServer.filter capability operationName lb.servers).eligible.map (·.Weight)).sum ∧
    ((List.countP (fun r : Nat => GetServer.pick (r : Int)
          (GetServer.filter capability operationName lb.servers).eligibleWeights 0 == some i)
        (List.range (GetServer.filter capability operationName lb.servers).totalWeight.toNat)
        : Nat) : Int) = server.Weight ∧
    ∀ (Intn : Int → Int → Int) (now : Int),
      GetServer.pick
        (Intn now (GetServer.filter capability operationName lb.servers).totalWeight)
        (GetServer.filter capability operationName lb.servers).eligibleWeights 0 = some i →
      (GetServer Intn now lb capability operationName).outcome = .ok server := by
  have hel : (GetServer.filter capability operationName lb.servers).eligible =
      lb.servers.filter (GetServer.keeps capability operationName) := by rw [filter_eq]
  have hwts : (GetServer.filter capability operationName lb.servers).eligibleWeights =
      cumulative 0 ((lb.servers.filter (GetServer.keeps capability operationName)).map
        (·.Weight)) := by rw [filter_eq]
  have htot : (GetServer.filter capability operationName lb.servers).totalWeight =
      cumTotal 0 ((lb.servers.filter (GetServer.keeps capability operationName)).map
        (·.Weight)) := by rw [filter_eq]
  have hone : ∀ w ∈ (lb.servers.filter (GetServer.keeps capability operationName)).map
      (·.Weight), 1 ≤ w := by
    intro w hmem
    obtain ⟨s, hs, rfl⟩ := List.mem_map.mp hmem
    exact hw s (List.mem_of_mem_filter hs)
  have hnonneg : ∀ w ∈ (lb.servers.filter (GetServer.keeps capability operationName)).map
      (·.Weight), 0 ≤ w := fun w hmem => by have := hone w hmem; omega
  have hfit2 : ((lb.servers.filter (GetServer.keeps capability operationName)).map
      (·.Weight)).sum < 2 ^ 63 := by rw [← hel]; exact hfit
  have hT := cumTotal_of_fits _ 0 hnonneg (le_refl 0) (by omega)
  rw [Int.zero_add] at hT
  have hi : i < (lb.servers.filter (GetServer.keeps capability operationName)).length := by
    rw [hel] at hget
    exact (List.getElem?_eq_some_iff.mp hget).1
  have hweight : ((lb.servers.filter (GetServer.keeps capability operationName)).map
      (·.Weight))[i]? = some server.Weight := by
    rw [hel] at hget
    simp [List.getElem?_map, hget]
  refine ⟨by rw [htot, hel, hT], ?_, ?_⟩
  · rw [hwts, htot, hT, count_pick_cumulative _ hnonneg hfit2 i (by simpa using hi)]
    have := (List.getElem?_eq_some_iff.mp hweight).2
    exact this
  · intro Intn now hp
    have hpos : 0 < (GetServer.filter capability operationName lb.servers).totalWeight := by
      rw [htot, hT]
      have hlen := length_le_sum _ hone
      simp only [List.length_map] at hlen
      omega
    rcases GetServer_cases Intn now lb capability operationName with
      ⟨h0, _⟩ | ⟨_, hle, _⟩ | ⟨_, _, ⟨j, s, hpj, hgj, hres⟩ | ⟨_, hpn, _⟩⟩
    · rw [h0] at hget
      simp at hget
    · omega
    · rw [hp] at hpj
      cases hpj
      rw [hget] at hgj
      cases hgj
      rw [hres]
    · rw [hp] at hpn
      cases hpn

/-- Witness for C7, amended: with weights 1 and 3 the total is 4 and the loop returns at index 1 for 3 of the 4 points. -/
theorem GetServer_selection_proportional_witness :
    (∀ s ∈ (New twoServers).servers, 1 ≤ s.Weight) ∧
    (GetServer.filter CapabilityQuery "" (New twoServers).servers).eligible[1]? =
      some { URL := "http://b", Capabilities := [CapabilityQuery], Weight := 3,
             OperationNames := [] } ∧
    (GetServer.filter CapabilityQuery "" (New twoServers).servers).totalWeight = 4 ∧
    ((List.countP (fun r : Nat => GetServer.pick (r : Int)
          (GetServer.filter CapabilityQuery "" (New twoServers).servers).eligibleWeights 0
            == some 1)
        (List.range
          (GetServer.filter CapabilityQuery "" (New twoServers).servers).totalWeight.toNat)
        : Nat) : Int) = 3 :=
  ⟨by decide, by decide, by decide,
   (GetServer_selection_proportional (New twoServers) CapabilityQuery "" (by decide)
      (by decide) 1
      { URL := "http://b", Capabilities := [CapabilityQuery], Weight := 3,
        OperationNames := [] }
      (by decide)).2.1⟩

/-- C9, as stated, fails: a call of `GetServer` that reads the clock value 42 and finds
  eligible servers creates a generator seeded with 42. -/
theorem GetServer_seeds_from_clock :
    (GetServer modIntn 42 (New twoServers) CapabilityQuery "").seeds = [42] ∧
    (GetServer modIntn 42 (New twoServers) CapabilityQuery "").seeds ≠ [] := by
  decide

/-- C9, amended: a call of `GetServer` that finds no eligible server creates no
  generator; every other call creates exactly one generator, seeded with the clock
  value read by the call, and its result depends on the generator only through the
  value that `Intn` gives for that seed and `totalWeight`. -/
theorem GetServer_seeds_each_call (Intn : Int → Int → Int) (now : Int)
    (lb : LoadBalancer) (capability : Capability) (operationName : String) :
    (GetServer Intn now lb capability operationName).seeds =
      (if (GetServer.filter capability operationName lb.servers).eligible = [] then []
       else [now]) ∧
    ∀ Intn2 : Int → Int → Int,
      Intn2 now (GetServer.filter capability operationName lb.servers).totalWeight =
        Intn now (GetServer.filter capability operationName lb.servers).totalWeight →
      GetServer Intn2 now lb capability operationName =
        GetServer Intn now lb capability operationName := by
  constructor
  · rcases GetServer_cases Intn now lb capability operationName with
      ⟨h0, hres⟩ | ⟨h0, _, hres⟩ | ⟨h0, _, ⟨_, _, _, _, hres⟩ | ⟨_, _, hres⟩⟩ <;>
    simp [hres, h0]
  · intro Intn2 h
    simp only [GetServer, h]

/-- Witness for C9, amended: with two eligible servers and the clock value 42, the
  call creates one generator seeded with 42, and a generator that draws the same point
  for that seed gives the same result. -/
theorem GetServer_seeds_each_call_witness :
    (GetServer modIntn 42 (New twoServers) CapabilityQuery "").seeds =
      (if (GetServer.filter CapabilityQuery "" (New twoServers).servers).eligible = [] then []
       else [42]) ∧
    GetServer (fun _ _ => 2) 42 (New twoServers) CapabilityQuery "" =
      GetServer modIntn 42 (New twoServers) CapabilityQuery "" :=
  ⟨(GetServer_seeds_each_call modIntn 42 (New twoServers) CapabilityQuery "").1,
   (GetServer_seeds_each_call modIntn 42 (New twoServers) CapabilityQuery "").2
      (fun _ _ => 2) (by decide)⟩

/-! ## Theorems on `validateConfig` and `LoadConfig` -/

lemma check_none_iff (ups : List UpstreamServer) (i : Nat) :
    validateConfig.check i ups = none ↔
      ∀ u ∈ ups, u.URL ≠ "" ∧ 1 ≤ u.Weight ∧ u.Capabilities ≠ [] := by
  induction ups generalizing i with
  | nil => simp [validateConfig.check]
  | cons u rest ih =>
    simp only [validateConfig.check, List.mem_cons, forall_eq_or_imp]
    by_cases h1 : u.URL = ""
    · simp [h1]
    · by_cases h2 : u.Weight < 1
      · simp only [h1, h2, if_true, if_false]
        constructor
        · intro h
          cases h
        · rintro ⟨⟨_, h, _⟩, _⟩
          omega
      · by_cases h3 : u.Capabilities.length = 0
        · simp only [h1, h2, h3, if_true, if_false]
          constructor
          · intro h
            cases h
          · rintro ⟨⟨_, _, h⟩, _⟩
            exact absurd (List.length_eq_zero.mp h3) h
        · simp only [h1, h2, h3, if_false, ih]
          have h3b : u.Capabilities ≠ [] := fun e => h3 (by simp [e])
          constructor
          · intro h
            exact ⟨⟨h1, by omega, h3b⟩, h⟩
          · rintro ⟨_, h⟩
            exact h

lemma validateConfig_upstreams (config : Config) :
    (validateConfig config).1.Upstreams = config.Upstreams := by
  unfold validateConfig
  split <;> rfl

lemma validateConfig_none_iff (config : Config) :
    (validateConfig config).2 = none ↔
      config.Upstreams ≠ [] ∧
        ∀ u ∈ config.Upstreams, u.URL ≠ "" ∧ 1 ≤ u.Weight ∧ u.Capabilities ≠ [] := by
  unfold validateConfig
  by_cases h : config.Upstreams.length = 0
  · have h2 : config.Upstreams = [] := List.length_eq_zero.mp h
    simp [h2]
  · have h2 : config.Upstreams ≠ [] := fun e => h (by simp [e])
    simp only [h, if_false, check_none_iff]
    exact ⟨fun hh => ⟨h2, hh⟩, fun hh => hh.2⟩

/-- C10: `validateConfig` returns no error if and only if the configuration has at
  least one upstream and every upstream has a non-empty URL, a weight of at least 1 and
  at least one capability; and a configuration returned by `LoadConfig` has at least
  one upstream, each with a non-empty URL, a weight of at least 1 and at least one
  capability, which are the servers of the load balancer built from it by `New`. -/
theorem validateConfig_accepts_iff (config : Config) :
    ((validateConfig config).2 = none ↔
      config.Upstreams ≠ [] ∧
        ∀ u ∈ config.Upstreams, u.URL ≠ "" ∧ 1 ≤ u.Weight ∧ u.Capabilities ≠ []) ∧
    ∀ (ReadFile : String → Except GoError String)
      (Unmarshal : String → Except GoError Config) (filename : String),
      LoadConfig ReadFile Unmarshal filename = .ok config →
        config.Upstreams ≠ [] ∧
        (∀ u ∈ config.Upstreams, u.URL ≠ "" ∧ 1 ≤ u.Weight ∧ u.Capabilities ≠ []) ∧
        (New config.Upstreams).servers = config.Upstreams := by
  refine ⟨validateConfig_none_iff config, ?_⟩
  intro ReadFile Unmarshal filename hload
  unfold LoadConfig at hload
  cases hr : ReadFile filename with
  | error e => simp [hr] at hload
  | ok data =>
    cases hu : Unmarshal data with
    | error e => simp [hr, hu] at hload
    | ok parsed =>
      simp only [hr, hu] at hload
      have hup := validateConfig_upstreams parsed
      have hiff := validateConfig_none_iff parsed
      cases hv : validateConfig parsed with
      | mk c err =>
        rw [hv] at hload hup hiff
        cases err with
        | some e => simp at hload
        | none =>
          simp only [Except.ok.injEq] at hload
          subst hload
          simp only [true_iff] at hiff
          simp only at hup
          rw [hup]
          exact ⟨hiff.1, hiff.2, rfl⟩

/-- Witness for C10: `LoadConfig` returns `sampleConfig` with its defaults set, and its upstreams satisfy the invariant. -/
theorem validateConfig_accepts_iff_witness :
    LoadConfig (fun _ => .ok "upstreams") (fun _ => .ok sampleConfig) "config.yaml"
      = .ok (validateConfig sampleConfig).1 ∧
    (validateConfig sampleConfig).1.Upstreams ≠ [] ∧
    (∀ u ∈ (validateConfig sampleConfig).1.Upstreams,
      u.URL ≠ "" ∧ 1 ≤ u.Weight ∧ u.Capabilities ≠ []) ∧
    (New (validateConfig sampleConfig).1.Upstreams).servers
      = (validateConfig sampleConfig).1.Upstreams :=
  ⟨rfl,
   (validateConfig_accepts_iff (validateConfig sampleConfig).1).2
     (fun _ => .ok "upstreams") (fun _ => .ok sampleConfig) "config.yaml" rfl⟩

/-! ## Theorems on `ParseGraphQLRequest` -/

lemma ParseGraphQLRequest_get
    (Unmarshal : String → Option (List (String × JsonValue)) × Option GoError)
    (Decode : Body → Request → Except GoError Request) (r : HttpRequest)
    (hm : r.Method = "GET") :
    ParseGraphQLRequest Unmarshal Decode r =
      if Values.Has r.URL.Query "query" then
        .ok { Query := Values.Get r.URL.Query "query",
              OperationName :=
                if Values.Has r.URL.Query "operationName" then
                  Values.Get r.URL.Query "operationName"
                else "",
              Variables :=
                if Values.Has r.URL.Query "variables" then
                  (Unmarshal (Values.Get r.URL.Query "variables")).1
                else none }
      else .error (.errorString "query parameter is required") := by
  unfold ParseGraphQLRequest
  simp only [hm, MethodGet, if_true]
  cases Values.Has r.URL.Query "query" <;>
    cases Values.Has r.URL.Query "variables" <;>
    cases Values.Has r.URL.Query "operationName" <;> simp

lemma ParseGraphQLRequest_post
    (Unmarshal : String → Option (List (String × JsonValue)) × Option GoError)
    (Decode : Body → Request → Except GoError Request) (r : HttpRequest)
    (hm : r.Method = "POST") :
    ParseGraphQLRequest Unmarshal Decode r =
      if Values.Get r.Header "Content-Type" = "application/graphql" then
        match ReadAll r.Body with
        | .error err => .error (.wrapped "error reading request body: " err)
        | .ok query => .ok { Query := query, OperationName := "", Variables := none }
      else if Values.Get r.Header "Content-Type" = "application/json" then
        match Decode r.Body { Query := "", OperationName := "", Variables := none } with
        | .error err => .error (.wrapped "error parsing request body: " err)
        | .ok req => .ok req
      else .error (.errorString "unsupported content type") := by
  unfold ParseGraphQLRequest
  have hne : ¬ ("POST" = MethodGet) := by decide
  simp only [hm, hne, MethodPost, if_true, if_false]

lemma ParseGraphQLRequest_other
    (Unmarshal : String → Option (List (String × JsonValue)) × Option GoError)
    (Decode : Body → Request → Except GoError Request) (r : HttpRequest)
    (hg : r.Method ≠ "GET") (hp : r.Method ≠ "POST") :
    ParseGraphQLRequest Unmarshal Decode r = .error (.errorString "method not allowed") := by
  unfold ParseGraphQLRequest
  simp only [MethodGet, MethodPost, hg, hp, if_false]

/-- C11: `ParseGraphQLRequest` succeeds exactly when the method is GET and a `query`
  value is present, or the method is POST with content type `application/graphql` and
  a body that can be read, or the method is POST with content type `application/json`
  and a body that decodes. For GET the resulting `Query` is the `query` value,
  whatever the decoding of `variables` gives; for `application/graphql` it is the body
  text; for `application/json` the result is the decoded request. A GET without
  `query`, a POST with another content type and any other method give an error. -/
theorem ParseGraphQLRequest_succeeds_iff
    (Unmarshal : String → Option (List (String × JsonValue)) × Option GoError)
    (Decode : Body → Request → Except GoError Request) (r : HttpRequest) :
    ((∃ req, ParseGraphQLRequest Unmarshal Decode r = .ok req) ↔
      (r.Method = "GET" ∧ Values.Has r.URL.Query "query" = true) ∨
      (r.Method = "POST" ∧ Values.Get r.Header "Content-Type" = "application/graphql" ∧
        ∃ data, ReadAll r.Body = .ok data) ∨
      (r.Method = "POST" ∧ Values.Get r.Header "Content-Type" = "application/json" ∧
        ∃ req, Decode r.Body { Query := "", OperationName := "", Variables := none }
          = .ok req)) ∧
    (∀ req, r.Method = "GET" → ParseGraphQLRequest Unmarshal Decode r = .ok req →
      req.Query = Values.Get r.URL.Query "query") ∧
    (∀ req, r.Method = "POST" →
      Values.Get r.Header "Content-Type" = "application/graphql" →
      ParseGraphQLRequest Unmarshal Decode r = .ok req →
      ReadAll r.Body = .ok req.Query) ∧
    (∀ req, r.Method = "POST" →
      Values.Get r.Header "Content-Type" = "application/json" →
      (ParseGraphQLRequest Unmarshal Decode r = .ok req ↔
        Decode r.Body { Query := "", OperationName := "", Variables := none } = .ok req)) ∧
    (r.Method = "GET" → Values.Has r.URL.Query "query" = false →
      ParseGraphQLRequest Unmarshal Decode r
        = .error (.errorString "query parameter is required")) ∧
    (r.Method = "POST" →
      Values.Get r.Header "Content-Type" ≠ "application/graphql" →
      Values.Get r.Header "Content-Type" ≠ "application/json" →
      ParseGraphQLRequest Unmarshal Decode r
        = .error (.errorString "unsupported content type")) ∧
    (r.Method ≠ "GET" → r.Method ≠ "POST" →
      ParseGraphQLRequest Unmarshal Decode r = .error (.errorString "method not allowed")) := by
  have hgp : ¬ ("GET" = "POST") := by decide
  have hct : ¬ ("application/json" = "application/graphql") := by decide
  refine ⟨?_, ?_, ?_, ?_, ?_, ?_, ?_⟩
  · by_cases hg : r.Method = "GET"
    · have hp : r.Method ≠ "POST" := by rw [hg]; exact hgp
      rw [ParseGraphQLRequest_get Unmarshal Decode r hg]
      cases hq : Values.Has r.URL.Query "query" <;> simp [hg]
    · by_cases hp : r.Method = "POST"
      · rw [ParseGraphQLRequest_post Unmarshal Decode r hp]
        by_cases h1 : Values.Get r.Header "Content-Type" = "application/graphql"
        · cases hb : ReadAll r.Body <;> simp [hg, hp, h1, hct]
        · by_cases h2 : Values.Get r.Header "Content-Type" = "application/json"
          · cases hd : Decode r.Body { Query := "", OperationName := "", Variables := none } <;>
              simp [hg, hp, h2, hct, hd]
          · simp [hg, hp, h1, h2]
      · rw [ParseGraphQLRequest_other Unmarshal Decode r hg hp]
        simp [hg, hp]
  · intro req hg h
    rw [ParseGraphQLRequest_get Unmarshal Decode r hg] at h
    cases hq : Values.Has r.URL.Query "query"
    · simp [hq] at h
    · simp only [hq, if_true, Except.ok.injEq] at h
      rw [← h]
  · intro req hp h1 h
    rw [ParseGraphQLRequest_post Unmarshal Decode r hp] at h
    simp only [h1, if_true] at h
    cases hb : ReadAll r.Body with
    | error e => simp [hb] at h
    | ok data =>
      simp only [hb, Except.ok.injEq] at h
      rw [← h]
  · intro req hp h2
    rw [ParseGraphQLRequest_post Unmarshal Decode r hp]
    have h1 : ¬ Values.Get r.Header "Content-Type" = "application/graphql" := by
      rw [h2]; exact hct
    simp only [h1, h2, if_true, if_false]
    cases hd : Decode r.Body { Query := "", OperationName := "", Variables := none } <;> simp
  · intro hg hq
    rw [ParseGraphQLRequest_get Unmarshal Decode r hg]
    simp [hq]
  · intro hp h1 h2
    rw [ParseGraphQLRequest_post Unmarshal Decode r hp]
    simp [h1, h2]
  · intro hg hp
    exact ParseGraphQLRequest_other Unmarshal Decode r hg hp

/-- Witness for C11: a GET request whose `variables` value does not decode succeeds
  with the `query` value as `Query`; a POST request of content type
  `application/graphql` succeeds with the body text; a PUT request is rejected. -/
theorem ParseGraphQLRequest_succeeds_iff_witness :
    (failingUnmarshal (Values.Get getRequest.URL.Query "variables")).2 ≠ none ∧
    (∃ req, ParseGraphQLRequest failingUnmarshal testDecode getRequest = .ok req) ∧
    (∃ req, ParseGraphQLRequest failingUnmarshal testDecode postGraphqlRequest = .ok req) ∧
    (∃ req, ParseGraphQLRequest failingUnmarshal testDecode postJsonRequest = .ok req) ∧
    ParseGraphQLRequest failingUnmarshal testDecode putRequest
      = .error (.errorString "method not allowed") :=
  ⟨by decide,
   (ParseGraphQLRequest_succeeds_iff failingUnmarshal testDecode getRequest).1.mpr
     (Or.inl ⟨rfl, rfl⟩),
   (ParseGraphQLRequest_succeeds_iff failingUnmarshal testDecode postGraphqlRequest).1.mpr
     (Or.inr (Or.inl ⟨rfl, rfl, _, rfl⟩)),
   (ParseGraphQLRequest_succeeds_iff failingUnmarshal testDecode postJsonRequest).1.mpr
     (Or.inr (Or.inr ⟨rfl, rfl, _, rfl⟩)),
   (ParseGraphQLRequest_succeeds_iff failingUnmarshal testDecode putRequest).2.2.2.2.2.2
     (by decide) (by decide)⟩

/-! ## Theorems on `Proxy.Handler` -/

/-- The metrics calls of a run of `Proxy.Handler`, by its exit: a run that ends at one
  of the first two `return` statements has called `IncActiveRequests` and nothing else;
  any other run has called `IncActiveRequests` once and `DecActiveRequests` once. -/
lemma Handler_calls_by_exit (env : Handler.Env) (lb : LoadBalancer) (r : HttpRequest) :
    (((Handler env lb r).exit = .badRequest ∨ (Handler env lb r).exit = .invalidQuery) ∧
      (Handler env lb r).calls = [.IncActiveRequests]) ∨
    ((Handler env lb r).exit ≠ .badRequest ∧ (Handler env lb r).exit ≠ .invalidQuery ∧
      (Handler env lb r).calls.count .IncActiveRequests = 1 ∧
      (Handler env lb r).calls.count .DecActiveRequests = 1) := by
  unfold Handler
  repeat' split
  all_goals simp

/-- Every run of `Proxy.Handler` that ends at one of its first two `return` statements
  leaves the counter `activeRequests` one above its value before the run. -/
lemma Handler_rejected_counter (env : Handler.Env) (lb : LoadBalancer) (r : HttpRequest)
    (before : Int) (hlo : -2 ^ 63 ≤ before) (hhi : before + 1 < 2 ^ 63)
    (hexit : (Handler env lb r).exit = .badRequest ∨ (Handler env lb r).exit = .invalidQuery) :
    activeRequestsAfter before (Handler env lb r).calls = before + 1 := by
  have hcalls : (Handler env lb r).calls = [.IncActiveRequests] := by
    rcases Handler_calls_by_exit env lb r with ⟨_, h⟩ | ⟨h1, h2, _⟩
    · exact h
    · rcases hexit with h | h
      · exact absurd h h1
      · exact absurd h h2
  rw [hcalls]
  simp only [activeRequestsAfter, List.foldl, MethodGet, MetricsCall.activeRequests]
  unfold wrapInt
  rw [Int.emod_eq_of_lt (by omega) (by omega)]
  omega

/-- C12 fails on the code: for a PUT request, which `ParseGraphQLRequest` rejects, and
  for a GET request whose operation name matches no definition, which `Request.Parse`
  rejects, `Proxy.Handler` calls `IncActiveRequests` and returns before the deferred
  call of `DecActiveRequests` is registered, so the counter goes from 0 to 1; a request
  that is proxied calls both once and leaves the counter at 0. -/
theorem Handler_active_requests_leak :
    Handler testEnv (New twoServers) putRequest
      = { calls := [.IncActiveRequests], exit := .badRequest } ∧
    activeRequestsAfter 0 (Handler testEnv (New twoServers) putRequest).calls = 1 ∧
    Handler testEnv (New twoServers) getRequestWrongName
      = { calls := [.IncActiveRequests], exit := .invalidQuery } ∧
    activeRequestsAfter 0 (Handler testEnv (New twoServers) getRequestWrongName).calls = 1 ∧
    Handler testEnv (New twoServers) getRequest
      = { calls := [.IncActiveRequests, .RecordUpstreamRequest "http://b" true,
                    .DecActiveRequests, .RecordRequest "query" true],
          exit := .proxied } ∧
    activeRequestsAfter 0 (Handler testEnv (New twoServers) getRequest).calls = 0 := by
  decide

end GraphqlProxy
